import Mathlib

/-!
Verification development for the CSV-to-SQLite loader of `server_db.py`
(repository `naosugi/csv_read_mcp`).

The embedding models, per column, the leading-zero-aware type inference
(`has_leading_zeros`, `can_convert_to_numeric`), the materialization of the
final typed table, the schema-artifact text file (`table_info.txt`) together
with the regex-based readers `get_table_names` and `get_table_schema`, the
SQLite table drop-and-recreate lifecycle, and the `execute_sql_query` gate
with its 10-row display cap.

Machine strings are `String`/`List Char`; numbers parsed from CSV cells are
`Rat` (pandas parses them to int64/float64; no claim here depends on binary
floating-point rounding).  External library behaviour (`pd.to_numeric`,
`DataFrame.to_sql`, SQLite `SUM`) is modelled explicitly where the code calls
into it; each such definition carries a doc comment naming what it models.
-/

namespace CsvReadMcp

/-- Python whitespace class `\s` restricted to its ASCII members
(space, tab, newline, carriage return, vertical tab, form feed).  The real
`re` module additionally admits rare non-ASCII Unicode whitespace; no value in
this development uses those. -/
def isPyWS (c : Char) : Bool :=
  c == ' ' || c == '\t' || c == '\n' || c == '\r' || c == '\x0b' || c == '\x0c'

/-- Strips leading and trailing (ASCII) whitespace from a character list,
modelling the whitespace tolerance of Python's numeric parsing. -/
def stripWS (cs : List Char) : List Char :=
  ((cs.dropWhile isPyWS).reverse.dropWhile isPyWS).reverse

/-- Numeric value of a list of ASCII digit characters, most significant first. -/
def digitsToNat (cs : List Char) : Nat :=
  cs.foldl (fun a c => a * 10 + (c.toNat - 48)) 0

/-- Decimal decomposition produced by the number grammar behind
`pd.to_numeric` on one cell string (locale-invariant, `.` as decimal
separator): optional surrounding whitespace, optional sign, a decimal mantissa
of digits with at most one `.` and at least one digit, and an optional
exponent introduced by `e`/`E` with optional sign.  The result is the signed
mantissa read as an integer, the number of fractional digits, and the signed
exponent.  `none` models a parse failure (which `pd.to_numeric` raises as an
exception, or turns into NaN under `errors='coerce'`).  Not modelled:
underscore digit separators and the `inf`/`nan` literals, which no claim
touches. -/
def parseDec (s : String) : Option (Int × Nat × Int) :=
  let cs := stripWS s.data
  let sgn : Int := match cs with
    | '-' :: _ => -1
    | _ => 1
  let cs1 : List Char := match cs with
    | '-' :: rest => rest
    | '+' :: rest => rest
    | _ => cs
  let notExpChar : Char → Bool := fun c => !(c == 'e' || c == 'E')
  let mant := cs1.takeWhile notExpChar
  let expPart := cs1.dropWhile notExpChar
  let expVal : Option Int :=
    match expPart with
    | [] => some 0
    | _ :: rest =>
      match rest with
      | '-' :: ds =>
        if !ds.isEmpty && ds.all Char.isDigit then some (-(digitsToNat ds : Int)) else none
      | '+' :: ds =>
        if !ds.isEmpty && ds.all Char.isDigit then some ((digitsToNat ds : Int)) else none
      | ds =>
        if !ds.isEmpty && ds.all Char.isDigit then some ((digitsToNat ds : Int)) else none
  let intPart := mant.takeWhile (fun c => !(c == '.'))
  let fracTail := mant.dropWhile (fun c => !(c == '.'))
  let fracOpt : Option (List Char) :=
    match fracTail with
    | [] => some []
    | _ :: rest => if rest.any (fun c => c == '.') then none else some rest
  match fracOpt, expVal with
  | some frac, some e =>
    if !(intPart ++ frac).isEmpty && (intPart ++ frac).all Char.isDigit then
      some (sgn * (digitsToNat (intPart ++ frac) : Int), frac.length, e)
    else none
  | _, _ => none

/-- The rational value denoted by a decimal decomposition: signed mantissa `m`
with `f` fractional digits, scaled by ten to the signed exponent `e`. -/
def ratOfParts (m : Int) (f : Nat) (e : Int) : Rat :=
  let scaled : Rat := (m : Rat) / (10 : Rat) ^ f
  if 0 ≤ e then scaled * (10 : Rat) ^ e.toNat else scaled / (10 : Rat) ^ (-e).toNat

/-- The numeric value `pd.to_numeric` assigns to one cell string, when it
parses. -/
def parseNum (s : String) : Option Rat :=
  (parseDec s).map (fun p => ratOfParts p.1 p.2.1 p.2.2)

/-- Python `str.isdigit` restricted to ASCII digits: the string is nonempty and
every character is a digit.  (Real `str.isdigit` also admits non-ASCII Unicode
digit characters; a column of such values is classified Text on both readings,
so the restriction is immaterial to the claims.) -/
def pyStrIsDigit (s : String) : Bool :=
  !s.data.isEmpty && s.data.all Char.isDigit

/-- The per-value test inside `has_leading_zeros`: the cell is a non-empty
string of length greater than 1, consists only of digits, and starts with
`'0'`.  Mirrors lines 30-33 of `server_db.py`. -/
def leadingZeroValue (v : String) : Bool :=
  !v.data.isEmpty && decide (1 < v.data.length) && pyStrIsDigit v
    && (v.data.head? == some '0')

/-- Direct embedding of `has_leading_zeros(series)` from `server_db.py`:
true iff some value of the column passes `leadingZeroValue`.  (The
`isinstance(value, str)` guard is vacuous because the frame is read with
`dtype=str`, so every cell is a string.) -/
def has_leading_zeros (series : List String) : Bool :=
  series.any leadingZeroValue

/-- Direct embedding of `can_convert_to_numeric(series)` from `server_db.py`:
drop the empty strings; a column with no non-empty value is not coercible;
otherwise the column is coercible iff every remaining value parses as a
number (`pd.to_numeric` raising on any failure is modelled by the `all`). -/
def can_convert_to_numeric (series : List String) : Bool :=
  let non_empty := series.filter (fun v => v != "")
  if non_empty.isEmpty then false
  else non_empty.all (fun v => (parseNum v).isSome)

/-- The two column types the loader distinguishes, written `'TEXT'` and
`'NUMERIC'` in `column_types` in the source. -/
inductive ColType where
  | TEXT
  | NUMERIC
deriving DecidableEq

/-- The per-column decision of `create_tables_from_csv` (lines 93-102 of
`server_db.py`): leading-zero columns are TEXT; otherwise numeric-coercible
columns are NUMERIC; everything else is TEXT.  Total — no exception escapes
for malformed input. -/
def classifyColumn (col : List String) : ColType :=
  if has_leading_zeros col then ColType.TEXT
  else if can_convert_to_numeric col then ColType.NUMERIC
  else ColType.TEXT

/-- A cell of the materialized table: a verbatim string for TEXT columns, a
parsed number for NUMERIC columns, or the missing-value marker (pandas NaN,
stored as SQL NULL) for empty/unparseable entries of NUMERIC columns. -/
inductive Cell where
  | text (s : String)
  | num (q : Rat)
  | missing
deriving DecidableEq

/-- Materialization of one NUMERIC-column value (lines 107-110 of
`server_db.py`): the empty string is first replaced by `None` (missing), and
the rest is passed to `pd.to_numeric(..., errors='coerce')`, which yields the
parsed number or NaN (missing) on failure. -/
def materializeValue (v : String) : Cell :=
  if v = "" then Cell.missing
  else
    match parseNum v with
    | some q => Cell.num q
    | none => Cell.missing

/-- Materialization of one column of the final frame `df_final`: TEXT columns
keep every original string unchanged; NUMERIC columns are converted cell-wise
by `materializeValue`. -/
def materializeColumn (col : List String) : List Cell :=
  match classifyColumn col with
  | ColType.TEXT => col.map Cell.text
  | ColType.NUMERIC => col.map materializeValue

/-- Models the SQL `SUM` aggregate over a stored column: SQLite ignores NULL
(missing) entries; TEXT cells do not arise in the columns this is applied to. -/
def sumNumeric (cells : List Cell) : Rat :=
  cells.foldl (fun acc c => match c with | Cell.num q => acc + q | _ => acc) 0

/-- Number of missing-value markers in a stored column. -/
def countMissing (cells : List Cell) : Nat :=
  cells.countP (fun c => c == Cell.missing)

/-- A parsed CSV source: the header row and the data rows, every field a
verbatim string (`pd.read_csv(..., dtype=str, keep_default_na=False)`
followed by `fillna('')`; absent trailing fields are the empty string). -/
structure RawTable where
  header : List String
  rows : List (List String)
deriving DecidableEq

/-- One file of the scanned directory: its table name (base name without the
`.csv` extension) and its parse result; `none` models a parse or I/O failure,
i.e. the path on which `pd.read_csv` (or any later step of the per-file body)
raises and the `except` branch logs and continues. -/
structure SourceFile where
  name : String
  parsed : Option RawTable
deriving DecidableEq

/-- The columns of a raw table, in header order; row `r` contributes
`r.getD i ""` to column `i`. -/
def columnsOf (rt : RawTable) : List (List String) :=
  (List.range rt.header.length).map (fun i => rt.rows.map (fun r => r.getD i ""))

/-- Python integer-literal shape after whitespace stripping: optional sign
then one or more digits.  Used to model the pandas dtype decision below. -/
def isIntLiteral (s : String) : Bool :=
  let cs := stripWS s.data
  let cs1 : List Char := match cs with
    | '-' :: rest => rest
    | '+' :: rest => rest
    | _ => cs
  !cs1.isEmpty && cs1.all Char.isDigit

/-- Models the SQLite declared type that `PRAGMA table_info` reports for the
column created by `DataFrame.to_sql`: TEXT for string (object-dtype) columns;
for NUMERIC columns, INTEGER when `pd.to_numeric` yields int64 (every value
non-empty and an integer literal) and REAL otherwise (any missing entry or
fractional/exponent form gives float64). -/
def storedSqliteType (col : List String) : String :=
  match classifyColumn col with
  | ColType.TEXT => "TEXT"
  | ColType.NUMERIC =>
    if col.all (fun v => (!(v == "")) && isIntLiteral v) then "INTEGER" else "REAL"

/-- The per-column description written to `table_info.txt` (lines 129-132 of
`server_db.py`): NUMERIC columns are described as 数値型, everything else as
文字列型 with the leading-zero note. -/
def describeColumn (t : ColType) (sqliteTy : String) : String :=
  match t with
  | ColType.NUMERIC => "数値型 (SQLite: " ++ sqliteTy ++ ")"
  | ColType.TEXT => "文字列型 (SQLite: " ++ sqliteTy ++ ") - 先頭0保持"

/-- Whether a recorded column description declares the numeric type, i.e.
begins with 数値型.  This is the Text/Numeric marker a reader of the Schema
Artifact consults. -/
def recordsNumeric (desc : String) : Bool :=
  "数値型".data.isPrefixOf desc.data

/-- Whether a cell is anything but a verbatim string. -/
def cellNotText : Cell → Bool
  | Cell.text _ => false
  | _ => true

/-- Whether a cell is an actual stored number. -/
def cellIsNum : Cell → Bool
  | Cell.num _ => true
  | _ => false

/-- Whether a stored column's representation is the numeric one: no verbatim
string cells, and at least one actual number (a NUMERIC column always has
one, since an all-empty column is classified TEXT). -/
def storedNumericRepr (cells : List Cell) : Bool :=
  cells.all cellNotText && cells.any cellIsNum

/-- One successfully loaded table: its name, header, per-column resolved
types, per-column recorded descriptions, the materialized columns of
`df_final`, and the row count. -/
structure LoadedTable where
  name : String
  header : List String
  colTypes : List ColType
  colDescriptions : List String
  cells : List (List Cell)
  rowCount : Nat
deriving DecidableEq

/-- The per-file body of `create_tables_from_csv` on a successfully parsed
file: classify each column, materialize the final frame, and record the
column descriptions.  (pandas deduplicates repeated header names on read, so
the `column_types.get(col_name, 'TEXT')` lookup the code performs against the
`PRAGMA` output recovers exactly the per-column decision; the model keeps the
association positional.) -/
def loadTable (name : String) (rt : RawTable) : LoadedTable :=
  let cols := columnsOf rt
  { name := name
    header := rt.header
    colTypes := cols.map classifyColumn
    colDescriptions :=
      cols.map (fun c => describeColumn (classifyColumn c) (storedSqliteType c))
    cells := cols.map materializeColumn
    rowCount := rt.rows.length }

/-- The tables successfully loaded from a directory scan, in file order;
failed files contribute nothing (their exception is caught and logged). -/
def loadAll (files : List SourceFile) : List LoadedTable :=
  files.filterMap (fun f => f.parsed.map (loadTable f.name))

/-- Models Python `str()` of one materialized cell as it is interpolated into
the sample-data lines of `table_info.txt`: verbatim for strings, `nan` for a
missing entry, and the decimal rendering of the number otherwise (the exact
int/float repr spelling is immaterial to every claim). -/
def showCell : Cell → String
  | Cell.text s => s
  | Cell.num q => toString q
  | Cell.missing => "nan"

/-- Row `j` of the materialized table, assembled from the stored columns. -/
def materializedRow (t : LoadedTable) (j : Nat) : List Cell :=
  t.cells.map (fun col => col.getD j Cell.missing)

/-- One sample-data line of the Schema Artifact
(`f"  行{idx + 1}: {row_data}"` with fields joined by `" | "`). -/
def rowLine (t : LoadedTable) (j : Nat) : String :=
  "  行" ++ toString (j + 1) ++ ": " ++
    String.intercalate " | "
      (List.zipWith (fun c v => c ++ ": " ++ showCell v) t.header (materializedRow t j))

/-- The lines of one table's Schema Artifact block after its header line:
column count, column details, the first three materialized rows, and the
final element, which is itself a newline character
(`table_info.append("\n")` in the source). -/
def tableRestLines (t : LoadedTable) : List String :=
  ("カラム数: " ++ toString t.header.length) ::
  "カラム詳細:" ::
  (List.zipWith (fun n d => "- " ++ n ++ ": " ++ d) t.header t.colDescriptions
    ++ ["サンプルデータ（最初の3行）:"]
    ++ (List.range (min 3 t.rowCount)).map (rowLine t)
    ++ ["\n"])

/-- The full block of one table in the Schema Artifact: the
`# テーブル: {name}` header line followed by the rest. -/
def tableInfoLines (t : LoadedTable) : List String :=
  ("# テーブル: " ++ t.name) :: tableRestLines t

/-- Every line appended to `table_info` over one directory scan, in file
order; the artifact is rebuilt from scratch (the file is opened with mode
`'w'`), so these are exactly the lines of the current scan. -/
def artifactLines (files : List SourceFile) : List String :=
  (loadAll files).flatMap tableInfoLines

/-- Python `"\n".join(...)`: the pieces separated by single newlines, with no
trailing separator. -/
def joinLines : List String → String
  | [] => ""
  | [l] => l
  | l :: l' :: ls => l ++ "\n" ++ joinLines (l' :: ls)

/-- Character-level counterpart of `joinLines`. -/
def joinNl : List (List Char) → List Char
  | [] => []
  | [l] => l
  | l :: l' :: ls => l ++ '\n' :: joinNl (l' :: ls)

/-- The content of `table_info.txt` after a scan. -/
def artifactContent (files : List SourceFile) : String :=
  joinLines (artifactLines files)

/-- First occurrence of the literal pattern `pat` in `l`: `some (a, b)` with
`l = a ++ pat ++ b` at the leftmost such split, `none` when `pat` does not
occur.  This is the search semantics of `re.search`/`re.findall` on the
metacharacter-free patterns the code builds. -/
def splitAtPat (pat : List Char) : List Char → Option (List Char × List Char)
  | [] => none
  | c :: rest =>
    if pat.isPrefixOf (c :: rest) then some ([], (c :: rest).drop pat.length)
    else
      match splitAtPat pat rest with
      | some (pre, post) => some (c :: pre, post)
      | none => none

/-- The table-header marker with its trailing space, as interpolated into the
patterns of `get_table_names` and `get_table_schema`. -/
def markerChars : List Char := "# テーブル: ".data

/-- The marker without the trailing space: the lookahead
`(?=# テーブル:|$)` of `get_table_schema`. -/
def markerColonChars : List Char := "# テーブル:".data

/-- One step of `re.findall(pat + r'(.*)', content)` for a literal `pat`:
scan left to right; at the first position where `pat` matches, the greedy
`(.*)` captures the rest of the line, and scanning resumes at that line's
end.  The fuel argument bounds the recursion by the input length. -/
def findallAux (pat : List Char) : Nat → List Char → List String
  | 0, _ => []
  | _ + 1, [] => []
  | fuel + 1, c :: rest =>
    if pat.isPrefixOf (c :: rest) then
      let after := (c :: rest).drop pat.length
      String.mk (after.takeWhile (fun ch => !(ch == '\n'))) ::
        findallAux pat fuel (after.dropWhile (fun ch => !(ch == '\n')))
    else
      findallAux pat fuel rest

/-- All captures of `re.findall(pat + r'(.*)', content)` for a literal
pattern. -/
def findallCaptures (pat : List Char) (cs : List Char) : List String :=
  findallAux pat cs.length cs

/-- What `re.findall(pat + r'(.*)', ...)` captures within one newline-free
line: nothing if the pattern does not occur, otherwise the text from the
first occurrence's end to the end of the line. -/
def lineCapture (pat l : List Char) : List String :=
  match splitAtPat pat l with
  | some (_, post) => [String.mk post]
  | none => []

/-- Direct embedding of the `get_table_names` tool: it reads
`table_info.txt` and returns every capture of
`re.findall(r'# テーブル: (.*)', content)` (the code then joins them with
newlines for display; the list is the information content). -/
def get_table_names (content : String) : List String :=
  findallCaptures markerChars content.data

/-- Python `re` metacharacters.  `get_table_schema` interpolates the table
name unescaped into its pattern, so a name containing one of these is read
as regex syntax by the code (e.g. `a.c` matches `abc`; `data (1)` turns into
a group and never matches its own verbatim record); for names free of them
the interpolated name is a literal and the substring model below is exact. -/
def isRegexMeta (c : Char) : Bool :=
  c == '.' || c == '^' || c == '$' || c == '*' || c == '+' || c == '?' ||
  c == '\x7b' || c == '\x7d' || c == '[' || c == ']' || c == '\\' || c == '|' ||
  c == '(' || c == ')'

/-- The found-branch result of `get_table_schema`:
`f"# テーブル: {table_name}\n{table_info}"` where `table_info` is the stripped
captured group. -/
def foundBlockMsg (table_name : String) (block : List Char) : String :=
  "# テーブル: " ++ table_name ++ "\n" ++ (String.mk block).trim

/-- Direct embedding of the `get_table_schema` tool on an artifact that was
read successfully: `re.search(f"# テーブル: {table_name}(.*?)(?=# テーブル:|$)",
content, re.DOTALL)` for a `table_name` free of `isRegexMeta` characters
finds the first occurrence of the literal `# テーブル: {table_name}`; the lazy
group then extends to the next occurrence of `# テーブル:` or to the end (`$`
also matching just before a final newline, which the `strip()` erases
anyway), and is stripped.  No match yields the not-found message.  For names
containing regex metacharacters the code reads the name as regex syntax and
diverges from this substring model; the theorems about this definition carry
the metacharacter-free restriction explicitly. -/
def get_table_schema (content : String) (table_name : String) : String :=
  match splitAtPat (markerChars ++ table_name.data) content.data with
  | none => "エラー: テーブル '" ++ table_name ++ "' の情報が見つかりません。"
  | some (_, after) =>
    let block : List Char :=
      match splitAtPat markerColonChars after with
      | some (pre, _) => pre
      | none => after
    foundBlockMsg table_name block

/-- The Python whitespace test of `re.match(r'^\s*SELECT', ..., re.IGNORECASE)`
on a query: drop leading whitespace, then the next six characters uppercased
must read SELECT. -/
def matchesSelect (s : String) : Bool :=
  ((s.data.dropWhile isPyWS).take 6).map Char.toUpper == "SELECT".data

/-- What `execute_sql_query` hands back on success: the displayed rows
(capped at ten) and the true shape of the full result, as interpolated into
`f"# クエリ結果 (全{total_rows}行、表示は最大10行まで) (列数: {total_cols})"`. -/
structure QueryResultView where
  displayedRows : List (List Cell)
  reportedRowCount : Nat
  reportedColCount : Nat
deriving DecidableEq

/-- The truncation-and-report step of `execute_sql_query` (lines 244-255):
`result_df.head(10)` is displayed while `result_df.shape` is reported. -/
def formatQueryResult (rows : List (List Cell)) (ncols : Nat) : QueryResultView :=
  { displayedRows := rows.take 10
    reportedRowCount := rows.length
    reportedColCount := ncols }

/-- Direct embedding of the `execute_sql_query` tool.  `run` models the
external engine `pd.read_sql_query(sql_query, conn)`: on success it yields
the full result rows and column count, on failure the exception text.  The
guard rejects any query whose leading keyword is not SELECT before `run` is
ever consulted; engine failures surface as the error string with the cause
appended. -/
def execute_sql_query (run : String → Except String (List (List Cell) × Nat))
    (sql_query : String) : Except String QueryResultView :=
  if matchesSelect sql_query then
    match run sql_query with
    | Except.ok (rows, ncols) => Except.ok (formatQueryResult rows ncols)
    | Except.error e => Except.error ("エラー: SQLクエリの実行に失敗しました - " ++ e)
  else
    Except.error "エラー: SELECTクエリのみ許可されています。"

/-- ASCII-case-insensitive table-name equality: SQLite resolves table names
case-insensitively for ASCII letters, so `DROP TABLE IF EXISTS [data]` also
removes a table named `Data`.  `Char.toLower` lowers exactly the ASCII
uppercase letters, matching SQLite's folding. -/
def sqliteNameEq (a b : String) : Bool :=
  a.data.map Char.toLower == b.data.map Char.toLower

/-- One file's effect on the live SQLite store (lines 112-116 of
`server_db.py`): on success, `DROP TABLE IF EXISTS` removes any table whose
name matches ASCII-case-insensitively and `to_sql(..., if_exists='replace')`
installs the new one under the file's spelling; a failed file leaves the
store unchanged.  The store is the persistent database file `./rssystem.db`,
so it may hold tables from earlier runs. -/
def loadStep (db : List (String × LoadedTable)) (f : SourceFile) :
    List (String × LoadedTable) :=
  match f.parsed with
  | some rt =>
    db.filter (fun p => !(sqliteNameEq p.fst f.name)) ++ [(f.name, loadTable f.name rt)]
  | none => db

/-- The live store after a full directory scan starting from state `db`. -/
def applyLoad (db : List (String × LoadedTable)) (files : List SourceFile) :
    List (String × LoadedTable) :=
  files.foldl loadStep db

/-- The names of the files that load successfully, in scan order. -/
def succNames (files : List SourceFile) : List String :=
  files.filterMap (fun f => f.parsed.map (fun _ => f.name))

/-! ### Helper lemmas about the classifier -/

theorem leadingZeroValue_iff (v : String) :
    leadingZeroValue v = true ↔
      2 ≤ v.data.length ∧ v.data.all Char.isDigit = true ∧ v.data.head? = some '0' := by
  simp only [leadingZeroValue, pyStrIsDigit, Bool.and_eq_true, Bool.not_eq_true',
    List.isEmpty_eq_false, beq_iff_eq, decide_eq_true_eq]
  constructor
  · rintro ⟨⟨⟨_, h1⟩, _, hdig⟩, hz⟩
    exact ⟨h1, hdig, hz⟩
  · rintro ⟨h1, hdig, hz⟩
    have hne : v.data ≠ [] := by
      intro h
      rw [h] at h1
      simp at h1
    exact ⟨⟨⟨hne, h1⟩, hne, hdig⟩, hz⟩

theorem has_leading_zeros_iff (series : List String) :
    has_leading_zeros series = true ↔
      ∃ v ∈ series, 2 ≤ v.data.length ∧ v.data.all Char.isDigit = true ∧
        v.data.head? = some '0' := by
  simp only [has_leading_zeros, List.any_eq_true, leadingZeroValue_iff]

theorem can_convert_to_numeric_iff (series : List String) :
    can_convert_to_numeric series = true ↔
      (∃ v ∈ series, v ≠ "") ∧ ∀ v ∈ series, v ≠ "" → (parseNum v).isSome = true := by
  have hfilt : ∀ v, v ∈ series.filter (fun v => v != "") ↔ v ∈ series ∧ v ≠ "" := by
    intro v
    rw [List.mem_filter]
    simp
  simp only [can_convert_to_numeric]
  by_cases hemp : (series.filter (fun v => v != "")).isEmpty = true
  · rw [if_pos hemp]
    rw [List.isEmpty_iff] at hemp
    constructor
    · intro h
      exact absurd h (by simp)
    · rintro ⟨⟨v, hv, hvne⟩, -⟩
      have hmem : v ∈ series.filter (fun v => v != "") := (hfilt v).2 ⟨hv, hvne⟩
      rw [hemp] at hmem
      simp at hmem
  · rw [if_neg hemp]
    rw [List.isEmpty_iff] at hemp
    constructor
    · intro hall
      rw [List.all_eq_true] at hall
      constructor
      · obtain ⟨v, hv⟩ := List.exists_mem_of_ne_nil _ hemp
        obtain ⟨hvs, hvne⟩ := (hfilt v).1 hv
        exact ⟨v, hvs, hvne⟩
      · intro v hv hvne
        exact hall v ((hfilt v).2 ⟨hv, hvne⟩)
    · rintro ⟨-, hall⟩
      rw [List.all_eq_true]
      intro v hv
      obtain ⟨hvs, hvne⟩ := (hfilt v).1 hv
      exact hall v hvs hvne

theorem classifyColumn_eq_NUMERIC_iff (col : List String) :
    classifyColumn col = ColType.NUMERIC ↔
      has_leading_zeros col = false ∧ can_convert_to_numeric col = true := by
  unfold classifyColumn
  by_cases h1 : has_leading_zeros col <;> by_cases h2 : can_convert_to_numeric col <;>
    simp [h1, h2]

/-! ### Claim theorems -/

/-- C1: a column holding at least one non-empty pure-digit value with a
leading zero and length at least two resolves to Text, and materialization
keeps every value of the column as the original string unchanged, so the
leading zero survives load (and any query then returns the stored string
verbatim). -/
theorem leadingZero_column_text_preserved (col : List String) (v : String)
    (hmem : v ∈ col) (_hne : v ≠ "") (hlen : 2 ≤ v.length)
    (hdig : v.data.all Char.isDigit = true) (hzero : v.data.head? = some '0') :
    classifyColumn col = ColType.TEXT ∧ materializeColumn col = col.map Cell.text := by
  have hlz : has_leading_zeros col = true :=
    (has_leading_zeros_iff col).2 ⟨v, hmem, hlen, hdig, hzero⟩
  have hclass : classifyColumn col = ColType.TEXT := by
    unfold classifyColumn
    rw [if_pos hlz]
  exact ⟨hclass, by simp only [materializeColumn, hclass]⟩

theorem leadingZero_column_text_preserved_witness :
    "00123" ∈ (["00123", "04560", "00001"] : List String) ∧
    ("00123" : String) ≠ "" ∧ 2 ≤ ("00123" : String).length ∧
    (classifyColumn ["00123", "04560", "00001"] = ColType.TEXT ∧
      materializeColumn ["00123", "04560", "00001"] =
        (["00123", "04560", "00001"] : List String).map Cell.text) :=
  ⟨by decide, by decide, by decide,
    leadingZero_column_text_preserved ["00123", "04560", "00001"] "00123"
      (by decide) (by decide) (by decide) (by decide) (by decide)⟩

/-- C2: the classifier follows the three-branch rule in order — a digit-only
value of length at least two starting with `'0'` forces Text; otherwise, if
the column has a non-empty value and every non-empty value parses as a
number, it is Numeric; otherwise Text.  A column with zero non-empty values
is Text, and the classifier is a total function (no exception escapes). -/
theorem classifier_three_branch_rule (col : List String) :
    (classifyColumn col = ColType.TEXT ∨ classifyColumn col = ColType.NUMERIC) ∧
    ((∃ v ∈ col, 2 ≤ v.length ∧ v.data.all Char.isDigit = true ∧
        v.data.head? = some '0') → classifyColumn col = ColType.TEXT) ∧
    (¬ (∃ v ∈ col, 2 ≤ v.length ∧ v.data.all Char.isDigit = true ∧
        v.data.head? = some '0') →
      ((∃ v ∈ col, v ≠ "") ∧ ∀ v ∈ col, v ≠ "" → (parseNum v).isSome = true) →
        classifyColumn col = ColType.NUMERIC) ∧
    (¬ (∃ v ∈ col, 2 ≤ v.length ∧ v.data.all Char.isDigit = true ∧
        v.data.head? = some '0') →
      ¬ ((∃ v ∈ col, v ≠ "") ∧ ∀ v ∈ col, v ≠ "" → (parseNum v).isSome = true) →
        classifyColumn col = ColType.TEXT) ∧
    ((∀ v ∈ col, v = "") → classifyColumn col = ColType.TEXT) := by
  refine ⟨?_, ?_, ?_, ?_, ?_⟩
  · unfold classifyColumn
    by_cases h1 : has_leading_zeros col <;> by_cases h2 : can_convert_to_numeric col <;>
      simp [h1, h2]
  · intro hex
    have hlz : has_leading_zeros col = true :=
      (has_leading_zeros_iff col).2 hex
    unfold classifyColumn
    rw [if_pos hlz]
  · intro hnex hcc
    have hlz : has_leading_zeros col = false := by
      rcases Bool.eq_false_or_eq_true (has_leading_zeros col) with h | h
      · exact absurd ((has_leading_zeros_iff col).1 h) hnex
      · exact h
    exact (classifyColumn_eq_NUMERIC_iff col).2 ⟨hlz, (can_convert_to_numeric_iff col).2 hcc⟩
  · intro hnex hncc
    have hlz : has_leading_zeros col = false := by
      rcases Bool.eq_false_or_eq_true (has_leading_zeros col) with h | h
      · exact absurd ((has_leading_zeros_iff col).1 h) hnex
      · exact h
    have hcc : can_convert_to_numeric col = false := by
      rcases Bool.eq_false_or_eq_true (can_convert_to_numeric col) with h | h
      · exact absurd ((can_convert_to_numeric_iff col).1 h) hncc
      · exact h
    unfold classifyColumn
    rw [hlz, hcc]
    simp
  · intro hall
    have hcc : can_convert_to_numeric col = false := by
      rcases Bool.eq_false_or_eq_true (can_convert_to_numeric col) with h | h
      · obtain ⟨⟨v, hv, hvne⟩, -⟩ := (can_convert_to_numeric_iff col).1 h
        exact absurd (hall v hv) hvne
      · exact h
    unfold classifyColumn
    by_cases h1 : has_leading_zeros col
    · rw [if_pos h1]
    · rw [if_neg h1, hcc]
      simp

/-- C4: for a column resolved Numeric, materialization converts the empty
string to the missing-value marker (never to the number 0) and every other
value to its parsed numeric value. -/
theorem numeric_column_materialization (col : List String)
    (h : classifyColumn col = ColType.NUMERIC) :
    materializeColumn col = col.map materializeValue ∧
    (∀ v ∈ col, v = "" → materializeValue v = Cell.missing ∧
      ∀ q : Rat, materializeValue v ≠ Cell.num q) ∧
    (∀ v ∈ col, v ≠ "" → ∃ q, parseNum v = some q ∧ materializeValue v = Cell.num q) := by
  refine ⟨by simp only [materializeColumn, h], ?_, ?_⟩
  · intro v _ hv
    subst hv
    constructor
    · simp [materializeValue]
    · intro q
      simp [materializeValue]
  · intro v hv hvne
    have hcc : can_convert_to_numeric col = true :=
      ((classifyColumn_eq_NUMERIC_iff col).1 h).2
    have hsome : (parseNum v).isSome = true :=
      ((can_convert_to_numeric_iff col).1 hcc).2 v hv hvne
    obtain ⟨q, hq⟩ := Option.isSome_iff_exists.1 hsome
    refine ⟨q, hq, ?_⟩
    simp only [materializeValue, if_neg hvne, hq]

theorem numeric_column_materialization_witness :
    classifyColumn ["10", "20.5", "", "30"] = ColType.NUMERIC ∧
    (materializeColumn ["10", "20.5", "", "30"] =
        (["10", "20.5", "", "30"] : List String).map materializeValue ∧
      (∀ v ∈ (["10", "20.5", "", "30"] : List String), v = "" →
        materializeValue v = Cell.missing ∧ ∀ q : Rat, materializeValue v ≠ Cell.num q) ∧
      (∀ v ∈ (["10", "20.5", "", "30"] : List String), v ≠ "" →
        ∃ q, parseNum v = some q ∧ materializeValue v = Cell.num q)) ∧
    countMissing (materializeColumn ["10", "20.5", "", "30"]) = 1 ∧
    sumNumeric (materializeColumn ["10", "20.5", "", "30"]) = (121 / 2 : Rat) := by
  refine ⟨by decide, numeric_column_materialization _ (by decide), by decide, ?_⟩
  have h : materializeColumn ["10", "20.5", "", "30"] =
      [Cell.num (ratOfParts 10 0 0), Cell.num (ratOfParts 205 1 0), Cell.missing,
        Cell.num (ratOfParts 30 0 0)] := rfl
  rw [h]
  simp only [sumNumeric, List.foldl]
  norm_num [ratOfParts]

/-- C10: the leading-zero protection looks only at exactly-digit strings — a
column whose values all parse as numbers, one of them carrying a leading zero
behind a sign character (`"+0123"`), is classified Numeric and its
materialized value is the number 123: the leading zero is dropped. -/
theorem leadingZero_protection_digits_only :
    has_leading_zeros ["+0123", "45"] = false ∧
    classifyColumn ["+0123", "45"] = ColType.NUMERIC ∧
    materializeColumn ["+0123", "45"] = [Cell.num 123, Cell.num 45] := by
  refine ⟨by decide, by decide, ?_⟩
  have h : materializeColumn ["+0123", "45"] =
      [Cell.num (ratOfParts 123 0 0), Cell.num (ratOfParts 45 0 0)] := rfl
  rw [h]
  norm_num [ratOfParts]

/-- C5: any query whose leading keyword (case-insensitive, leading whitespace
ignored) is not SELECT is rejected by `execute_sql_query` with the validation
error string, and the external engine is never consulted: the outcome is the
same for every engine. -/
theorem non_select_query_rejected
    (run : String → Except String (List (List Cell) × Nat)) (q : String)
    (h : matchesSelect q = false) :
    execute_sql_query run q =
      Except.error "エラー: SELECTクエリのみ許可されています。" ∧
    ∀ run', execute_sql_query run q = execute_sql_query run' q := by
  constructor
  · simp only [execute_sql_query, h, Bool.false_eq_true, if_false]
  · intro run'
    simp only [execute_sql_query, h, Bool.false_eq_true, if_false]

theorem non_select_query_rejected_witness :
    matchesSelect "DROP TABLE x" = false ∧
    matchesSelect "  delete from x" = false ∧
    (execute_sql_query (fun _ => Except.ok ([], 0)) "DROP TABLE x" =
        Except.error "エラー: SELECTクエリのみ許可されています。" ∧
      ∀ run', execute_sql_query (fun _ => Except.ok ([], 0)) "DROP TABLE x" =
        execute_sql_query run' "DROP TABLE x") ∧
    (execute_sql_query (fun _ => Except.ok ([], 0)) "  delete from x" =
        Except.error "エラー: SELECTクエリのみ許可されています。" ∧
      ∀ run', execute_sql_query (fun _ => Except.ok ([], 0)) "  delete from x" =
        execute_sql_query run' "  delete from x") :=
  ⟨by decide, by decide,
    non_select_query_rejected (fun _ => Except.ok ([], 0)) "DROP TABLE x" (by decide),
    non_select_query_rejected (fun _ => Except.ok ([], 0)) "  delete from x" (by decide)⟩

/-- C6: on a valid SELECT query whose engine run yields `rows` and `ncols`,
`execute_sql_query` displays exactly `min rows.length 10` rows — the first
ten of the result — while reporting the true total row count and the true
total column count unmodified. -/
theorem select_query_truncation_and_counts
    (run : String → Except String (List (List Cell) × Nat)) (q : String)
    (rows : List (List Cell)) (ncols : Nat)
    (hsel : matchesSelect q = true) (hrun : run q = Except.ok (rows, ncols)) :
    execute_sql_query run q = Except.ok (formatQueryResult rows ncols) ∧
    (formatQueryResult rows ncols).displayedRows = rows.take 10 ∧
    (formatQueryResult rows ncols).displayedRows.length = min rows.length 10 ∧
    (formatQueryResult rows ncols).reportedRowCount = rows.length ∧
    (formatQueryResult rows ncols).reportedColCount = ncols := by
  refine ⟨?_, rfl, ?_, rfl, rfl⟩
  · simp only [execute_sql_query, hsel, if_true, hrun]
  · simp only [formatQueryResult, List.length_take]
    exact Nat.min_comm 10 rows.length

theorem select_query_truncation_and_counts_witness :
    matchesSelect "SELECT * FROM t" = true ∧
    (execute_sql_query (fun _ => Except.ok (List.replicate 12 [Cell.missing], 3))
        "SELECT * FROM t" =
        Except.ok (formatQueryResult (List.replicate 12 [Cell.missing]) 3) ∧
      (formatQueryResult (List.replicate 12 [Cell.missing]) 3).displayedRows =
        (List.replicate 12 ([Cell.missing] : List Cell)).take 10 ∧
      (formatQueryResult (List.replicate 12 [Cell.missing]) 3).displayedRows.length =
        min (List.replicate 12 ([Cell.missing] : List Cell)).length 10 ∧
      (formatQueryResult (List.replicate 12 [Cell.missing]) 3).reportedRowCount =
        (List.replicate 12 ([Cell.missing] : List Cell)).length ∧
      (formatQueryResult (List.replicate 12 [Cell.missing]) 3).reportedColCount = 3) ∧
    (formatQueryResult (List.replicate 12 [Cell.missing]) 3).displayedRows.length = 10 ∧
    (formatQueryResult (List.replicate 12 [Cell.missing]) 3).reportedRowCount = 12 :=
  ⟨by decide,
    select_query_truncation_and_counts _ "SELECT * FROM t"
      (List.replicate 12 [Cell.missing]) 3 (by decide) rfl,
    by decide, by decide⟩

/-! ### Schema/store agreement (C3) -/

theorem isPrefixOf_append_self (p r : List Char) : p.isPrefixOf (p ++ r) = true := by
  induction p with
  | nil => simp [List.isPrefixOf]
  | cons c cs ih => simp [List.isPrefixOf, ih]

theorem recordsNumeric_describe (t : ColType) (s : String) :
    recordsNumeric (describeColumn t s) = (t == ColType.NUMERIC) := by
  cases t
  · simp only [describeColumn, recordsNumeric]
    rw [String.data_append, String.data_append]
    rfl
  · simp only [describeColumn, recordsNumeric]
    rw [show ("数値型 (SQLite: " : String) = "数値型" ++ " (SQLite: " from rfl,
      String.data_append, String.data_append, String.data_append, List.append_assoc,
      List.append_assoc]
    rw [isPrefixOf_append_self]
    rfl

theorem all_map_beta {α β : Type} (f : α → β) (l : List α) (p : β → Bool) :
    (l.map f).all p = l.all (fun a => p (f a)) := by
  induction l with
  | nil => rfl
  | cons a l ih => simp [ih]

theorem any_map_beta {α β : Type} (f : α → β) (l : List α) (p : β → Bool) :
    (l.map f).any p = l.any (fun a => p (f a)) := by
  induction l with
  | nil => rfl
  | cons a l ih => simp [ih]

theorem cellNotText_materializeValue (v : String) :
    cellNotText (materializeValue v) = true := by
  unfold materializeValue
  by_cases h : v = ""
  · simp [h, cellNotText]
  · rw [if_neg h]
    cases parseNum v <;> simp [cellNotText]

theorem describe_matches_stored (c : List String) :
    recordsNumeric (describeColumn (classifyColumn c) (storedSqliteType c)) =
      storedNumericRepr (materializeColumn c) := by
  rw [recordsNumeric_describe]
  cases h : classifyColumn c
  · have hmat : materializeColumn c = c.map Cell.text := by
      simp only [materializeColumn, h]
    rw [hmat, storedNumericRepr]
    have hany : (c.map Cell.text).any cellIsNum = false := by
      rw [any_map_beta]
      simp [cellIsNum]
    rw [hany, Bool.and_false]
    rfl
  · have hmat : materializeColumn c = c.map materializeValue := by
      simp only [materializeColumn, h]
    rw [hmat, storedNumericRepr]
    have hall : (c.map materializeValue).all cellNotText = true := by
      rw [all_map_beta, List.all_eq_true]
      intro v _
      exact cellNotText_materializeValue v
    have hcc := (classifyColumn_eq_NUMERIC_iff c).1 h
    obtain ⟨⟨v0, hv0, hv0ne⟩, hparse⟩ := (can_convert_to_numeric_iff c).1 hcc.2
    have hany : (c.map materializeValue).any cellIsNum = true := by
      rw [any_map_beta, List.any_eq_true]
      refine ⟨v0, hv0, ?_⟩
      obtain ⟨q, hq⟩ := Option.isSome_iff_exists.1 (hparse v0 hv0 hv0ne)
      simp only [materializeValue, if_neg hv0ne, hq, cellIsNum]
    rw [hall, hany]
    rfl

theorem loadAll_mem_decomp (files : List SourceFile) (t : LoadedTable)
    (ht : t ∈ loadAll files) :
    ∃ f ∈ files, ∃ rt, f.parsed = some rt ∧ t = loadTable f.name rt := by
  simp only [loadAll, List.mem_filterMap] at ht
  obtain ⟨f, hf, hmap⟩ := ht
  cases hp : f.parsed with
  | none =>
    rw [hp] at hmap
    simp at hmap
  | some rt =>
    rw [hp] at hmap
    simp only [Option.map_some'] at hmap
    exact ⟨f, hf, rt, hp, (Option.some.injEq _ _ ▸ hmap).symm⟩

/-- C3: for every loaded table and every column position, the Text/Numeric
marker of the description recorded in the Schema Artifact agrees with the
stored representation of that column in the live store — the two never
diverge, for any input directory. -/
theorem schema_description_matches_store (files : List SourceFile)
    (t : LoadedTable) (ht : t ∈ loadAll files) (i : Nat) :
    (t.colDescriptions[i]?).map recordsNumeric = (t.cells[i]?).map storedNumericRepr := by
  obtain ⟨f, -, rt, -, rfl⟩ := loadAll_mem_decomp files t ht
  simp only [loadTable]
  rw [List.getElem?_map, List.getElem?_map, Option.map_map, Option.map_map]
  cases hc : (columnsOf rt)[i]? with
  | none => rfl
  | some c =>
    simp only [Option.map_some', Function.comp]
    rw [describe_matches_stored]

theorem schema_description_matches_store_witness :
    (loadTable "codes" ⟨["postal"], [["00123"], ["04560"]]⟩) ∈
      loadAll [⟨"codes", some ⟨["postal"], [["00123"], ["04560"]]⟩⟩] ∧
    ((loadTable "codes" ⟨["postal"], [["00123"], ["04560"]]⟩).colDescriptions[0]?).map
        recordsNumeric =
      ((loadTable "codes" ⟨["postal"], [["00123"], ["04560"]]⟩).cells[0]?).map
        storedNumericRepr :=
  ⟨by decide,
    schema_description_matches_store [⟨"codes", some ⟨["postal"], [["00123"], ["04560"]]⟩⟩]
      _ (by decide) 0⟩

/-! ### Rescan lifecycle of the live store (C8) -/

theorem loadStep_none (db : List (String × LoadedTable)) (f : SourceFile)
    (h : f.parsed = none) : loadStep db f = db := by
  simp [loadStep, h]

theorem loadStep_some (db : List (String × LoadedTable)) (f : SourceFile)
    (rt : RawTable) (h : f.parsed = some rt) :
    loadStep db f =
      db.filter (fun p => !(sqliteNameEq p.fst f.name)) ++
        [(f.name, loadTable f.name rt)] := by
  simp [loadStep, h]

theorem succNames_cons_none (f : SourceFile) (fs : List SourceFile)
    (h : f.parsed = none) : succNames (f :: fs) = succNames fs := by
  simp [succNames, h]

theorem succNames_cons_some (f : SourceFile) (fs : List SourceFile)
    (rt : RawTable) (h : f.parsed = some rt) :
    succNames (f :: fs) = f.name :: succNames fs := by
  simp [succNames, h]

theorem applyLoad_eq_filter_append (db : List (String × LoadedTable))
    (files : List SourceFile) :
    applyLoad db files =
      db.filter (fun p => !((succNames files).any (fun n => sqliteNameEq p.fst n))) ++
        applyLoad [] files := by
  induction files generalizing db with
  | nil =>
    simp [applyLoad, succNames]
  | cons f fs ih =>
    cases hp : f.parsed with
    | none =>
      have h1 : applyLoad db (f :: fs) = applyLoad db fs := by
        simp only [applyLoad, List.foldl_cons, loadStep_none db f hp]
      have h2 : applyLoad ([] : List (String × LoadedTable)) (f :: fs) =
          applyLoad [] fs := by
        simp only [applyLoad, List.foldl_cons, loadStep_none [] f hp]
      rw [h1, h2, succNames_cons_none f fs hp, ih]
    | some rt =>
      have h1 : applyLoad db (f :: fs) =
          applyLoad (db.filter (fun p => !(sqliteNameEq p.fst f.name)) ++
            [(f.name, loadTable f.name rt)]) fs := by
        simp only [applyLoad, List.foldl_cons, loadStep_some db f rt hp]
      have h2 : applyLoad ([] : List (String × LoadedTable)) (f :: fs) =
          applyLoad [(f.name, loadTable f.name rt)] fs := by
        simp only [applyLoad, List.foldl_cons, loadStep_some [] f rt hp]
        rfl
      rw [h1, h2, ih, ih [(f.name, loadTable f.name rt)], List.filter_append,
        List.filter_filter, succNames_cons_some f fs rt hp, List.append_assoc]
      have hpred : ∀ p : String × LoadedTable,
          ((fun p : String × LoadedTable =>
            !((succNames fs).any (fun n => sqliteNameEq p.fst n))) p &&
            (fun p : String × LoadedTable => !(sqliteNameEq p.fst f.name)) p) =
          !((f.name :: succNames fs).any (fun n => sqliteNameEq p.fst n)) := by
        intro p
        rw [List.any_cons, Bool.not_or, Bool.and_comm]
      have hcongr : db.filter (fun p : String × LoadedTable =>
            (!((succNames fs).any (fun n => sqliteNameEq p.fst n))) &&
              !(sqliteNameEq p.fst f.name)) =
          db.filter (fun p : String × LoadedTable =>
            !((f.name :: succNames fs).any (fun n => sqliteNameEq p.fst n))) :=
        List.filter_congr (fun p _ => hpred p)
      rw [hcongr]

theorem applyLoad_nil_names (files : List SourceFile) :
    ∀ p ∈ applyLoad ([] : List (String × LoadedTable)) files,
      (succNames files).any (fun n => sqliteNameEq p.fst n) = true := by
  induction files with
  | nil =>
    intro p hp
    simp [applyLoad] at hp
  | cons f fs ih =>
    intro p hp
    cases hf : f.parsed with
    | none =>
      have h2 : applyLoad ([] : List (String × LoadedTable)) (f :: fs) =
          applyLoad [] fs := by
        simp only [applyLoad, List.foldl_cons, loadStep_none [] f hf]
      rw [h2] at hp
      rw [succNames_cons_none f fs hf]
      exact ih p hp
    | some rt =>
      have h2 : applyLoad ([] : List (String × LoadedTable)) (f :: fs) =
          applyLoad [(f.name, loadTable f.name rt)] fs := by
        simp only [applyLoad, List.foldl_cons, loadStep_some [] f rt hf]
        rfl
      rw [h2, applyLoad_eq_filter_append] at hp
      rw [succNames_cons_some f fs rt hf, List.any_cons]
      rcases List.mem_append.1 hp with hmem | hmem
      · rcases List.mem_filter.1 hmem with ⟨hmem1, -⟩
        rcases List.mem_singleton.1 hmem1 with rfl
        simp [sqliteNameEq]
      · rw [ih p hmem]
        simp

/-- C8 (amended): a rescan drops and recreates every table whose name
matches a current file ASCII-case-insensitively (SQLite's name resolution)
and is idempotent — the live store after a scan is exactly the tables
derived from the current files appended to the pre-existing tables whose
names match no current file's name case-insensitively.  (The store is the
persistent file `./rssystem.db`: stale tables from an earlier run whose
source files are gone survive the rescan, so the store equals exactly the
current directory's tables only when it starts empty.) -/
theorem rescan_semantics (db : List (String × LoadedTable)) (files : List SourceFile) :
    applyLoad db files =
      db.filter (fun p => !((succNames files).any (fun n => sqliteNameEq p.fst n))) ++
        applyLoad [] files ∧
    applyLoad (applyLoad db files) files = applyLoad db files := by
  refine ⟨applyLoad_eq_filter_append db files, ?_⟩
  rw [applyLoad_eq_filter_append db files,
    applyLoad_eq_filter_append
      (db.filter (fun p => !((succNames files).any (fun n => sqliteNameEq p.fst n))) ++
        applyLoad [] files) files,
    List.filter_append, List.filter_filter]
  have h1 : db.filter (fun p : String × LoadedTable =>
        (!((succNames files).any (fun n => sqliteNameEq p.fst n))) &&
          !((succNames files).any (fun n => sqliteNameEq p.fst n))) =
      db.filter (fun p : String × LoadedTable =>
        !((succNames files).any (fun n => sqliteNameEq p.fst n))) :=
    List.filter_congr (fun p _ => Bool.and_self _)
  have h2 : (applyLoad ([] : List (String × LoadedTable)) files).filter
      (fun p => !((succNames files).any (fun n => sqliteNameEq p.fst n))) = [] := by
    rw [List.filter_eq_nil_iff]
    intro p hp
    rw [applyLoad_nil_names files p hp]
    simp
  rw [h1, h2, List.append_nil]

/-- C8 counterexample: a store that already holds a table `old` (left behind
by an earlier run of the process) still holds it after a rescan of a
directory whose only file is `new.csv`, although `old` is not derived from
any current file — the live store is not exactly the current directory's
tables.  By contrast, a pre-existing table `Data` IS dropped by a rescan of
`data.csv` (SQLite resolves the names case-insensitively) and recreated
under the new spelling. -/
theorem stale_table_survives_rescan :
    ("old", loadTable "old" ⟨["c"], [["x"]]⟩) ∈
      applyLoad [("old", loadTable "old" ⟨["c"], [["x"]]⟩)]
        [⟨"new", some ⟨["c"], [["y"]]⟩⟩] ∧
    succNames [⟨"new", some ⟨["c"], [["y"]]⟩⟩] = ["new"] ∧
    "old" ∉ succNames [⟨"new", some ⟨["c"], [["y"]]⟩⟩] ∧
    applyLoad [("Data", loadTable "Data" ⟨["c"], [["x"]]⟩)]
        [⟨"data", some ⟨["c"], [["y"]]⟩⟩] =
      [("data", loadTable "data" ⟨["c"], [["y"]]⟩)] := by
  decide

/-! ### Substring search semantics of the regex lookups -/

theorem isPrefixOf_iff_exists (p l : List Char) :
    p.isPrefixOf l = true ↔ ∃ t, l = p ++ t := by
  induction p generalizing l with
  | nil =>
    simp [List.isPrefixOf]
  | cons c cs ih =>
    cases l with
    | nil => simp [List.isPrefixOf]
    | cons d ds =>
      simp only [List.isPrefixOf, Bool.and_eq_true, beq_iff_eq, ih, List.cons_append,
        List.cons.injEq]
      constructor
      · rintro ⟨rfl, t, rfl⟩
        exact ⟨t, rfl, rfl⟩
      · rintro ⟨t, rfl, rfl⟩
        exact ⟨rfl, t, rfl⟩

theorem splitAtPat_some_decomp (pat l a b : List Char)
    (h : splitAtPat pat l = some (a, b)) : l = a ++ pat ++ b := by
  induction l generalizing a b with
  | nil => simp [splitAtPat] at h
  | cons c rest ih =>
    rw [splitAtPat] at h
    by_cases hp : pat.isPrefixOf (c :: rest) = true
    · rw [if_pos hp] at h
      obtain ⟨t, ht⟩ := (isPrefixOf_iff_exists pat (c :: rest)).1 hp
      rw [Option.some.injEq, Prod.mk.injEq] at h
      obtain ⟨ha, hb⟩ := h
      subst ha
      rw [ht, List.drop_left] at hb
      subst hb
      rw [ht]
      rfl
    · rw [if_neg hp] at h
      cases hrec : splitAtPat pat rest with
      | none =>
        rw [hrec] at h
        simp at h
      | some pr =>
        obtain ⟨pre, post⟩ := pr
        rw [hrec, Option.some.injEq, Prod.mk.injEq] at h
        obtain ⟨ha, hb⟩ := h
        subst ha
        subst hb
        rw [ih pre post hrec]
        rfl

theorem splitAtPat_ne_none_of_occurs (pat : List Char) (hpat : pat ≠ []) :
    ∀ (a l b : List Char), l = a ++ pat ++ b → splitAtPat pat l ≠ none := by
  intro a
  induction a with
  | nil =>
    intro l b hl
    cases pat with
    | nil => exact absurd rfl hpat
    | cons p ps =>
      rw [List.nil_append, List.cons_append] at hl
      subst hl
      rw [splitAtPat, if_pos]
      · simp
      · rw [show p :: (ps ++ b) = (p :: ps) ++ b from rfl]
        exact isPrefixOf_append_self (p :: ps) b
  | cons c a' ih =>
    intro l b hl
    rw [List.cons_append, List.cons_append] at hl
    subst hl
    rw [splitAtPat]
    by_cases hp : pat.isPrefixOf (c :: (a' ++ pat ++ b)) = true
    · rw [if_pos hp]
      simp
    · rw [if_neg hp]
      cases hrec : splitAtPat pat (a' ++ pat ++ b) with
      | none => exact absurd hrec (ih (a' ++ pat ++ b) b rfl)
      | some pr =>
        obtain ⟨pre, post⟩ := pr
        simp

theorem splitAtPat_eq_none_iff (pat l : List Char) (hpat : pat ≠ []) :
    splitAtPat pat l = none ↔ ¬ ∃ a b, l = a ++ pat ++ b := by
  constructor
  · rintro hn ⟨a, b, hab⟩
    exact splitAtPat_ne_none_of_occurs pat hpat a l b hab hn
  · intro hnex
    cases hs : splitAtPat pat l with
    | none => rfl
    | some pr =>
      obtain ⟨a, b⟩ := pr
      exact absurd ⟨a, b, splitAtPat_some_decomp pat l a b hs⟩ hnex

theorem foundBlockMsg_ne_error (tn y z : String) (blk : List Char) :
    foundBlockMsg tn blk ≠ (("エラー: テーブル '" ++ y) ++ z) := by
  intro h
  have h1 : (foundBlockMsg tn blk).data.head? = some '#' := by
    unfold foundBlockMsg
    rw [String.data_append, String.data_append, String.data_append]
    rfl
  have h2 : (("エラー: テーブル '" ++ y) ++ z).data.head? = some 'エ' := by
    rw [String.data_append, String.data_append]
    rfl
  rw [h, h2] at h1
  exact absurd h1 (by decide)

/-- C9 (amended): for a table name free of regex metacharacters — the name
is interpolated unescaped into the pattern, so names containing
metacharacters are read as regex syntax instead of matched verbatim —
`get_table_schema` signals not-found exactly when the string
`# テーブル: {table_name}` occurs nowhere in the artifact; so a stored table
whose name merely extends `table_name` suppresses the not-found signal, and
exact-name lookup is not guaranteed.  The not-found message is distinct from
the I/O-failure message of the reader for every table name and every
exception text. -/
theorem get_table_schema_not_found_semantics (content table_name : String)
    (_hlit : table_name.data.all (fun c => !(isRegexMeta c)) = true) :
    (get_table_schema content table_name =
        "エラー: テーブル '" ++ table_name ++ "' の情報が見つかりません。" ↔
      ¬ ∃ a b, content.data = a ++ (markerChars ++ table_name.data) ++ b) ∧
    ∀ e : String,
      ("エラー: テーブル '" ++ table_name ++ "' の情報が見つかりません。") ≠
        ("エラー: テーブル情報の取得に失敗しました - " ++ e) := by
  constructor
  · have hpat : markerChars ++ table_name.data ≠ [] := by
      intro h
      have := congrArg List.length h
      rw [List.length_append] at this
      simp [markerChars] at this
    unfold get_table_schema
    cases hs : splitAtPat (markerChars ++ table_name.data) content.data with
    | none =>
      simp only [true_iff]
      exact (splitAtPat_eq_none_iff (markerChars ++ table_name.data) content.data hpat).1 hs
    | some pr =>
      obtain ⟨a, b⟩ := pr
      constructor
      · intro h
        exact absurd h (foundBlockMsg_ne_error _ _ _ _)
      · intro hnex
        exact absurd
          ⟨a, b, splitAtPat_some_decomp (markerChars ++ table_name.data) content.data a b hs⟩
          hnex
  · intro e h
    have e1 : ∀ y z : String, (("エラー: テーブル '" ++ y) ++ z).data[9]? = some ' ' := by
      intro y z
      rw [String.data_append, String.data_append]
      rfl
    have e2 : ∀ y : String,
        ("エラー: テーブル情報の取得に失敗しました - " ++ y).data[9]? = some '情' := by
      intro y
      rw [String.data_append]
      rfl
    have h1 := congrArg (fun s : String => s.data[9]?) h
    simp only at h1
    rw [e1, e2] at h1
    exact absurd h1 (by decide)

theorem get_table_schema_not_found_semantics_witness :
    ("codes" : String).data.all (fun c => !(isRegexMeta c)) = true ∧
    ((get_table_schema (artifactContent [⟨"codes", some ⟨["postal"], [["001"]]⟩⟩])
          "codes" =
        "エラー: テーブル 'codes' の情報が見つかりません。" ↔
      ¬ ∃ a b, (artifactContent [⟨"codes", some ⟨["postal"], [["001"]]⟩⟩]).data =
        a ++ (markerChars ++ ("codes" : String).data) ++ b) ∧
    ∀ e : String,
      ("エラー: テーブル '" ++ "codes" ++ "' の情報が見つかりません。") ≠
        ("エラー: テーブル情報の取得に失敗しました - " ++ e)) :=
  ⟨by decide,
    get_table_schema_not_found_semantics
      (artifactContent [⟨"codes", some ⟨["postal"], [["001"]]⟩⟩]) "codes" (by decide)⟩

/-- C9 counterexample: the artifact of a scan that loaded exactly one table,
named `foobar`, makes `get_table_schema` on the absent name `foo` return a
block instead of the not-found message. -/
theorem get_table_schema_accepts_name_extension :
    (loadAll [⟨"foobar", some ⟨["postal"], [["001"], ["002"]]⟩⟩]).map LoadedTable.name =
      ["foobar"] ∧
    "foo" ∉ (loadAll [⟨"foobar", some ⟨["postal"], [["001"], ["002"]]⟩⟩]).map
      LoadedTable.name ∧
    get_table_schema
        (artifactContent [⟨"foobar", some ⟨["postal"], [["001"], ["002"]]⟩⟩]) "foo" ≠
      "エラー: テーブル 'foo' の情報が見つかりません。" := by
  refine ⟨by decide, by decide, ?_⟩
  decide

/-! ### Scan semantics of `get_table_names` (C7) -/

theorem length_dropWhile_le' {α : Type} (p : α → Bool) (l : List α) :
    (l.dropWhile p).length ≤ l.length := by
  induction l with
  | nil => exact Nat.le_refl 0
  | cons a l ih =>
    rw [List.dropWhile_cons]
    by_cases h : p a = true
    · rw [if_pos h]
      exact Nat.le_trans ih (Nat.le_succ _)
    · rw [if_neg h]

theorem findallAux_fuel (pat : List Char) (hpat : pat ≠ []) :
    ∀ (f1 : Nat) (l : List Char) (f2 : Nat), l.length ≤ f1 → l.length ≤ f2 →
      findallAux pat f1 l = findallAux pat f2 l := by
  intro f1
  induction f1 with
  | zero =>
    intro l f2 h1 _
    have hl : l = [] := List.eq_nil_of_length_eq_zero (Nat.le_zero.1 h1)
    subst hl
    cases f2 <;> rfl
  | succ k ih =>
    intro l f2 h1 h2
    cases l with
    | nil => cases f2 <;> rfl
    | cons c rest =>
      have hf2 : ∃ m, f2 = m + 1 := by
        cases f2 with
        | zero =>
          rw [List.length_cons] at h2
          exact absurd h2 (by omega)
        | succ m => exact ⟨m, rfl⟩
      obtain ⟨m, rfl⟩ := hf2
      rw [List.length_cons] at h1 h2
      rw [findallAux, findallAux]
      by_cases hp : pat.isPrefixOf (c :: rest) = true
      · rw [if_pos hp, if_pos hp]
        have hplen : 1 ≤ pat.length := by
          cases pat with
          | nil => exact absurd rfl hpat
          | cons _ _ => simp
        have hdrop : ((c :: rest).drop pat.length).length ≤ rest.length := by
          rw [List.length_drop, List.length_cons]
          omega
        have hlen : (((c :: rest).drop pat.length).dropWhile
            (fun ch => !(ch == '\n'))).length ≤ rest.length :=
          Nat.le_trans (length_dropWhile_le' _ _) hdrop
        show String.mk (((c :: rest).drop pat.length).takeWhile (fun ch => !(ch == '\n'))) ::
            findallAux pat k
              (((c :: rest).drop pat.length).dropWhile (fun ch => !(ch == '\n'))) =
          String.mk (((c :: rest).drop pat.length).takeWhile (fun ch => !(ch == '\n'))) ::
            findallAux pat m
              (((c :: rest).drop pat.length).dropWhile (fun ch => !(ch == '\n')))
        rw [ih _ m (by omega) (by omega)]
      · rw [if_neg hp, if_neg hp]
        exact ih rest m (by omega) (by omega)

theorem findallCaptures_cons_neg (pat : List Char) (c : Char) (l : List Char)
    (h : pat.isPrefixOf (c :: l) = false) :
    findallCaptures pat (c :: l) = findallCaptures pat l := by
  show findallAux pat (c :: l).length (c :: l) = findallAux pat l.length l
  rw [List.length_cons, findallAux, if_neg (by simp [h])]

theorem findallCaptures_append_pat (pat : List Char) (hpat : pat ≠ []) (r : List Char) :
    findallCaptures pat (pat ++ r) =
      String.mk (r.takeWhile (fun ch => !(ch == '\n'))) ::
        findallCaptures pat (r.dropWhile (fun ch => !(ch == '\n'))) := by
  obtain ⟨p, ps, rfl⟩ : ∃ p ps, pat = p :: ps := by
    cases pat with
    | nil => exact absurd rfl hpat
    | cons p ps => exact ⟨p, ps, rfl⟩
  show findallAux (p :: ps) ((p :: ps) ++ r).length ((p :: ps) ++ r) = _
  simp only [List.cons_append, List.length_cons]
  rw [findallAux]
  rw [if_pos (by rw [← List.cons_append]; exact isPrefixOf_append_self (p :: ps) r)]
  have hdrop : (p :: (ps ++ r)).drop (p :: ps).length = r := by
    rw [← List.cons_append, List.drop_left]
  show String.mk
      (((p :: (ps ++ r)).drop (p :: ps).length).takeWhile (fun ch => !(ch == '\n'))) ::
      findallAux (p :: ps) (ps ++ r).length
        (((p :: (ps ++ r)).drop (p :: ps).length).dropWhile (fun ch => !(ch == '\n'))) = _
  rw [hdrop]
  congr 1
  apply findallAux_fuel (p :: ps) hpat
  · refine Nat.le_trans (length_dropWhile_le' _ _) ?_
    rw [List.length_append]
    omega
  · exact Nat.le_refl _

theorem takeWhile_append_nl (t R : List Char) (h : ('\n' : Char) ∉ t) :
    (t ++ '\n' :: R).takeWhile (fun ch => !(ch == '\n')) = t := by
  induction t with
  | nil => simp [List.takeWhile_cons]
  | cons a t' ih =>
    rw [List.cons_append, List.takeWhile_cons,
      if_pos (by simp; exact fun hc => h (hc ▸ List.mem_cons_self a t'))]
    rw [ih (fun hm => h (List.mem_cons_of_mem a hm))]

theorem dropWhile_append_nl (t R : List Char) (h : ('\n' : Char) ∉ t) :
    (t ++ '\n' :: R).dropWhile (fun ch => !(ch == '\n')) = '\n' :: R := by
  induction t with
  | nil => simp [List.dropWhile_cons]
  | cons a t' ih =>
    rw [List.cons_append, List.dropWhile_cons,
      if_pos (by simp; exact fun hc => h (hc ▸ List.mem_cons_self a t'))]
    exact ih (fun hm => h (List.mem_cons_of_mem a hm))

theorem takeWhile_of_no_nl (t : List Char) (h : ('\n' : Char) ∉ t) :
    t.takeWhile (fun ch => !(ch == '\n')) = t := by
  induction t with
  | nil => rfl
  | cons a t' ih =>
    rw [List.takeWhile_cons,
      if_pos (by simp; exact fun hc => h (hc ▸ List.mem_cons_self a t'))]
    rw [ih (fun hm => h (List.mem_cons_of_mem a hm))]

theorem dropWhile_of_no_nl (t : List Char) (h : ('\n' : Char) ∉ t) :
    t.dropWhile (fun ch => !(ch == '\n')) = [] := by
  induction t with
  | nil => rfl
  | cons a t' ih =>
    rw [List.dropWhile_cons,
      if_pos (by simp; exact fun hc => h (hc ▸ List.mem_cons_self a t'))]
    exact ih (fun hm => h (List.mem_cons_of_mem a hm))

theorem joinLines_data (L : List String) :
    (joinLines L).data = joinNl (L.map String.data) := by
  induction L with
  | nil => rfl
  | cons l ls ih =>
    cases ls with
    | nil => rfl
    | cons l2 ls2 =>
      show ((l ++ "\n") ++ joinLines (l2 :: ls2)).data =
        l.data ++ '\n' :: joinNl ((l2 :: ls2).map String.data)
      rw [String.data_append, String.data_append, ih, List.append_assoc]
      rfl

theorem splitAtPat_self (pat r : List Char) (hpat : pat ≠ []) :
    splitAtPat pat (pat ++ r) = some ([], r) := by
  obtain ⟨p, ps, rfl⟩ : ∃ p ps, pat = p :: ps := by
    cases pat with
    | nil => exact absurd rfl hpat
    | cons p ps => exact ⟨p, ps, rfl⟩
  rw [List.cons_append, splitAtPat,
    if_pos (by rw [← List.cons_append]; exact isPrefixOf_append_self (p :: ps) r)]
  rw [show (p :: (ps ++ r)).drop (p :: ps).length = r from by
    rw [← List.cons_append, List.drop_left]]

theorem splitAtPat_cons_none (pat : List Char) (c : Char) (l : List Char)
    (h : splitAtPat pat (c :: l) = none) :
    pat.isPrefixOf (c :: l) = false ∧ splitAtPat pat l = none := by
  rw [splitAtPat] at h
  by_cases hp : pat.isPrefixOf (c :: l) = true
  · rw [if_pos hp] at h
    simp at h
  · refine ⟨Bool.eq_false_iff.2 hp, ?_⟩
    rw [if_neg hp] at h
    cases hr : splitAtPat pat l with
    | none => rfl
    | some pr =>
      obtain ⟨x, y⟩ := pr
      rw [hr] at h
      simp at h

theorem isPrefixOf_extend_false (pat : List Char) (hpatnl : ('\n' : Char) ∉ pat) :
    ∀ (l R : List Char), pat.isPrefixOf l = false →
      pat.isPrefixOf (l ++ '\n' :: R) = false := by
  induction pat with
  | nil =>
    intro l R h
    simp [List.isPrefixOf] at h
  | cons p ps ih =>
    intro l R h
    cases l with
    | nil =>
      have hp : p ≠ '\n' := fun hc => hpatnl (hc ▸ List.mem_cons_self p ps)
      simp [List.isPrefixOf, hp]
    | cons a l' =>
      rw [List.cons_append]
      show (p == a && ps.isPrefixOf (l' ++ '\n' :: R)) = false
      have h' : (p == a && ps.isPrefixOf l') = false := h
      cases hpa : (p == a) with
      | false => simp [hpa]
      | true =>
        rw [hpa, Bool.true_and] at h'
        rw [Bool.true_and]
        exact ih (fun hm => hpatnl (List.mem_cons_of_mem p hm)) l' R h'

theorem findall_skip_terminal (pat : List Char) :
    ∀ l : List Char, splitAtPat pat l = none → findallCaptures pat l = [] := by
  intro l
  induction l with
  | nil =>
    intro _
    rfl
  | cons c l' ih =>
    intro hnone
    obtain ⟨h1, h2⟩ := splitAtPat_cons_none pat c l' hnone
    rw [findallCaptures_cons_neg pat c l' h1]
    exact ih h2

theorem findall_skip_line (pat : List Char) (hpat : pat ≠ [])
    (hpatnl : ('\n' : Char) ∉ pat) (R : List Char) :
    ∀ l : List Char, splitAtPat pat l = none →
      findallCaptures pat (l ++ '\n' :: R) = findallCaptures pat R := by
  have hstep : findallCaptures pat ('\n' :: R) = findallCaptures pat R := by
    obtain ⟨p, ps, hp⟩ : ∃ p ps, pat = p :: ps := by
      cases pat with
      | nil => exact absurd rfl hpat
      | cons p ps => exact ⟨p, ps, rfl⟩
    have hpne : p ≠ '\n' := fun hc => hpatnl (by rw [hp]; exact hc ▸ List.mem_cons_self p ps)
    apply findallCaptures_cons_neg
    rw [hp]
    simp [List.isPrefixOf, hpne]
  intro l
  induction l with
  | nil =>
    intro _
    rw [List.nil_append]
    exact hstep
  | cons c l' ih =>
    intro hnone
    obtain ⟨h1, h2⟩ := splitAtPat_cons_none pat c l' hnone
    rw [List.cons_append]
    rw [findallCaptures_cons_neg pat c (l' ++ '\n' :: R)
      (isPrefixOf_extend_false pat hpatnl (c :: l') R h1)]
    exact ih h2

theorem findall_match_terminal (pat : List Char) (hpat : pat ≠ []) :
    ∀ (l pre post : List Char), ('\n' : Char) ∉ l →
      splitAtPat pat l = some (pre, post) →
      findallCaptures pat l = [String.mk post] := by
  intro l
  induction l with
  | nil =>
    intro pre post _ hsome
    simp [splitAtPat] at hsome
  | cons c l' ih =>
    intro pre post hlnl hsome
    rw [splitAtPat] at hsome
    by_cases hp : pat.isPrefixOf (c :: l') = true
    · rw [if_pos hp] at hsome
      obtain ⟨t, ht⟩ := (isPrefixOf_iff_exists pat (c :: l')).1 hp
      rw [Option.some.injEq, Prod.mk.injEq] at hsome
      obtain ⟨-, hpost⟩ := hsome
      rw [ht, List.drop_left] at hpost
      rw [← hpost]
      rw [ht, findallCaptures_append_pat pat hpat t]
      have htnl : ('\n' : Char) ∉ t := fun hm => hlnl (by
        rw [ht]
        exact List.mem_append_right pat hm)
      rw [takeWhile_of_no_nl t htnl, dropWhile_of_no_nl t htnl]
      rfl
    · rw [if_neg hp] at hsome
      cases hr : splitAtPat pat l' with
      | none =>
        rw [hr] at hsome
        simp at hsome
      | some pr =>
        obtain ⟨pre', post'⟩ := pr
        rw [hr, Option.some.injEq, Prod.mk.injEq] at hsome
        obtain ⟨-, hpost⟩ := hsome
        rw [← hpost]
        rw [findallCaptures_cons_neg pat c l' (Bool.eq_false_iff.2 hp)]
        exact ih pre' post' (fun hm => hlnl (List.mem_cons_of_mem c hm)) hr

theorem findall_match_line (pat : List Char) (hpat : pat ≠ [])
    (hpatnl : ('\n' : Char) ∉ pat) (R : List Char) :
    ∀ (l pre post : List Char), ('\n' : Char) ∉ l →
      splitAtPat pat l = some (pre, post) →
      findallCaptures pat (l ++ '\n' :: R) =
        String.mk post :: findallCaptures pat R := by
  have hstep : findallCaptures pat ('\n' :: R) = findallCaptures pat R := by
    obtain ⟨p, ps, hp⟩ : ∃ p ps, pat = p :: ps := by
      cases pat with
      | nil => exact absurd rfl hpat
      | cons p ps => exact ⟨p, ps, rfl⟩
    have hpne : p ≠ '\n' := fun hc => hpatnl (by rw [hp]; exact hc ▸ List.mem_cons_self p ps)
    apply findallCaptures_cons_neg
    rw [hp]
    simp [List.isPrefixOf, hpne]
  intro l
  induction l with
  | nil =>
    intro pre post _ hsome
    simp [splitAtPat] at hsome
  | cons c l' ih =>
    intro pre post hlnl hsome
    rw [splitAtPat] at hsome
    by_cases hp : pat.isPrefixOf (c :: l') = true
    · rw [if_pos hp] at hsome
      obtain ⟨t, ht⟩ := (isPrefixOf_iff_exists pat (c :: l')).1 hp
      rw [Option.some.injEq, Prod.mk.injEq] at hsome
      obtain ⟨-, hpost⟩ := hsome
      rw [ht, List.drop_left] at hpost
      rw [← hpost]
      have hgoal : (c :: l') ++ '\n' :: R = pat ++ (t ++ '\n' :: R) := by
        rw [ht, List.append_assoc]
      rw [hgoal, findallCaptures_append_pat pat hpat (t ++ '\n' :: R)]
      have htnl : ('\n' : Char) ∉ t := fun hm => hlnl (by
        rw [ht]
        exact List.mem_append_right pat hm)
      rw [takeWhile_append_nl t R htnl, dropWhile_append_nl t R htnl, hstep]
    · rw [if_neg hp] at hsome
      cases hr : splitAtPat pat l' with
      | none =>
        rw [hr] at hsome
        simp at hsome
      | some pr =>
        obtain ⟨pre', post'⟩ := pr
        rw [hr, Option.some.injEq, Prod.mk.injEq] at hsome
        obtain ⟨-, hpost⟩ := hsome
        rw [← hpost]
        rw [List.cons_append]
        rw [findallCaptures_cons_neg pat c (l' ++ '\n' :: R)
          (isPrefixOf_extend_false pat hpatnl (c :: l') R (Bool.eq_false_iff.2 hp))]
        exact ih pre' post' (fun hm => hlnl (List.mem_cons_of_mem c hm)) hr

theorem findall_joinNl (pat : List Char) (hpat : pat ≠ [])
    (hpatnl : ('\n' : Char) ∉ pat) :
    ∀ Ls : List (List Char),
      (∀ l ∈ Ls, splitAtPat pat l = none ∨ ('\n' : Char) ∉ l) →
      findallCaptures pat (joinNl Ls) = Ls.flatMap (lineCapture pat) := by
  intro Ls
  induction Ls with
  | nil =>
    intro _
    rfl
  | cons l ls ih =>
    intro hnl
    cases ls with
    | nil =>
      show findallCaptures pat l = lineCapture pat l ++ [].flatMap (lineCapture pat)
      rw [List.flatMap_nil, List.append_nil]
      cases hs : splitAtPat pat l with
      | none =>
        rw [findall_skip_terminal pat l hs]
        simp [lineCapture, hs]
      | some pr =>
        obtain ⟨pre, post⟩ := pr
        have hln : ('\n' : Char) ∉ l := by
          rcases hnl l (List.mem_cons_self l []) with hc | hc
          · rw [hs] at hc
            exact absurd hc (by simp)
          · exact hc
        rw [findall_match_terminal pat hpat l pre post hln hs]
        simp [lineCapture, hs]
    | cons l2 ls2 =>
      show findallCaptures pat (l ++ '\n' :: joinNl (l2 :: ls2)) = _
      rw [List.flatMap_cons]
      have hrest : ∀ x ∈ l2 :: ls2, splitAtPat pat x = none ∨ ('\n' : Char) ∉ x :=
        fun x hx => hnl x (List.mem_cons_of_mem l hx)
      cases hs : splitAtPat pat l with
      | none =>
        rw [findall_skip_line pat hpat hpatnl (joinNl (l2 :: ls2)) l hs, ih hrest]
        simp [lineCapture, hs]
      | some pr =>
        obtain ⟨pre, post⟩ := pr
        have hln : ('\n' : Char) ∉ l := by
          rcases hnl l (List.mem_cons_self l (l2 :: ls2)) with hc | hc
          · rw [hs] at hc
            exact absurd hc (by simp)
          · exact hc
        rw [findall_match_line pat hpat hpatnl (joinNl (l2 :: ls2)) l pre post hln hs,
          ih hrest]
        simp [lineCapture, hs]

theorem table_block_capture (t : LoadedTable) (_hname : ('\n' : Char) ∉ t.name.data)
    (hrest : ∀ l ∈ tableRestLines t, splitAtPat markerChars l.data = none) :
    ((tableInfoLines t).map String.data).flatMap (lineCapture markerChars) = [t.name] := by
  rw [tableInfoLines, List.map_cons, List.flatMap_cons]
  have hheader : lineCapture markerChars ("# テーブル: " ++ t.name).data = [t.name] := by
    rw [String.data_append,
      show ("# テーブル: " : String).data = markerChars from rfl, lineCapture,
      splitAtPat_self markerChars t.name.data (by decide)]
  rw [hheader]
  have hrest0 : ((tableRestLines t).map String.data).flatMap (lineCapture markerChars) =
      [] := by
    rw [List.flatMap_eq_nil_iff]
    intro x hx
    rw [List.mem_map] at hx
    obtain ⟨l, hl, rfl⟩ := hx
    rw [lineCapture, hrest l hl]
  rw [hrest0, List.append_nil]

theorem tables_lines_captures (L : List LoadedTable)
    (hclean : ∀ t ∈ L, (('\n' : Char) ∉ t.name.data) ∧
      ∀ l ∈ tableRestLines t, splitAtPat markerChars l.data = none) :
    findallCaptures markerChars (joinNl ((L.flatMap tableInfoLines).map String.data)) =
      L.map LoadedTable.name := by
  have hnlAll : ∀ l ∈ (L.flatMap tableInfoLines).map String.data,
      splitAtPat markerChars l = none ∨ ('\n' : Char) ∉ l := by
    intro l hl
    rw [List.mem_map] at hl
    obtain ⟨s, hs, rfl⟩ := hl
    rw [List.mem_flatMap] at hs
    obtain ⟨t, htL, hst⟩ := hs
    rw [tableInfoLines] at hst
    rcases List.mem_cons.1 hst with rfl | hst'
    · right
      rw [String.data_append]
      intro hmem
      rcases List.mem_append.1 hmem with h1 | h2
      · exact absurd h1 (by decide)
      · exact (hclean t htL).1 h2
    · left
      exact (hclean t htL).2 s hst'
  rw [findall_joinNl markerChars (by decide) (by decide) _ hnlAll]
  clear hnlAll
  induction L with
  | nil => rfl
  | cons t L' ih =>
    rw [List.flatMap_cons, List.map_append, List.flatMap_append, List.map_cons]
    rw [table_block_capture t (hclean t (List.mem_cons_self t L')).1
      (fun l hl => (hclean t (List.mem_cons_self t L')).2 l hl)]
    rw [ih (fun u hu => hclean u (List.mem_cons_of_mem t hu))]
    rfl

/-- C7 (amended): a parse or I/O failure on one source file does not abort
the others — provided the marker string `# テーブル: ` occurs on no non-header
line of the artifact (no column name or sample value contains it) and no
artifact line embeds a newline, `get_table_names` returns exactly the names
of the successfully loaded tables, in scan order: every loaded table is
included and every failed one excluded. -/
theorem mixed_batch_table_names (files : List SourceFile)
    (hclean : ∀ t ∈ loadAll files, (('\n' : Char) ∉ t.name.data) ∧
      ∀ l ∈ tableRestLines t, splitAtPat markerChars l.data = none) :
    get_table_names (artifactContent files) = (loadAll files).map LoadedTable.name := by
  show findallCaptures markerChars (artifactContent files).data = _
  rw [show (artifactContent files).data =
      joinNl (((loadAll files).flatMap tableInfoLines).map String.data) from
    joinLines_data (artifactLines files)]
  exact tables_lines_captures (loadAll files) hclean

theorem mixed_batch_table_names_witness :
    (∀ t ∈ loadAll [⟨"alpha", some ⟨["c"], [["x"]]⟩⟩,
        ⟨"beta", (none : Option RawTable)⟩],
      (('\n' : Char) ∉ t.name.data) ∧
      ∀ l ∈ tableRestLines t, splitAtPat markerChars l.data = none) ∧
    get_table_names (artifactContent [⟨"alpha", some ⟨["c"], [["x"]]⟩⟩,
        ⟨"beta", (none : Option RawTable)⟩]) =
      (loadAll [⟨"alpha", some ⟨["c"], [["x"]]⟩⟩,
        ⟨"beta", (none : Option RawTable)⟩]).map LoadedTable.name :=
  ⟨by decide,
    mixed_batch_table_names
      [⟨"alpha", some ⟨["c"], [["x"]]⟩⟩, ⟨"beta", (none : Option RawTable)⟩] (by decide)⟩

/-- C7 counterexample: when a loaded table's sample value contains the marker
string followed by the name of a sibling file that failed to parse,
`get_table_names` reports that failed name as a table — the failed file is
not excluded from the listing. -/
theorem table_names_include_failed_name :
    (⟨"bad", (none : Option RawTable)⟩ : SourceFile).parsed = none ∧
    (loadAll [⟨"good", some ⟨["c"], [["# テーブル: bad"]]⟩⟩,
        ⟨"bad", (none : Option RawTable)⟩]).map LoadedTable.name = ["good"] ∧
    "bad" ∈ get_table_names (artifactContent
      [⟨"good", some ⟨["c"], [["# テーブル: bad"]]⟩⟩,
        ⟨"bad", (none : Option RawTable)⟩]) := by
  decide

end CsvReadMcp
